import Mathlib

/-!
TCP chat relay (`tcpchat_server.c`, `tcpchat.c`).

A shallow embedding of the sanitizer shared by the client and the server and of
the server's control loop (select, accept, console input, client read, relay).

Conventions of the embedding:

* a byte is a `Fin 256`; memory reachable through a `const char *` is a function
  from offsets to bytes; a `char[N]` array is a list of `N` bytes;
* whether plain `char` is signed is left to the C implementation, so every
  definition that compares a `char` takes the signedness as a parameter;
* the results of the system calls of one loop turn are the input of that turn
  (`TurnEnv`); what the process does to the outside world is recorded as the
  list of `recv` calls and the list of `send` calls of the turn;
* text written to `stdout`/`stderr` is not recorded.
-/

namespace TcpChat

/-! ## Bytes and C strings -/

/-- One byte of memory. -/
abbrev Byte := Fin 256

/-- The macro `BUFFLEN` of both programs. -/
def BUFFLEN : Nat := 1024

/-- Value of a `char` holding byte `b` once promoted to `int`: with a signed
`char` the bytes from 0x80 on are negative. -/
def charVal (signedChar : Bool) (b : Byte) : Int :=
  if signedChar && decide (128 ≤ b.val) then (b.val : Int) - 256 else (b.val : Int)

/-- The NUL-terminated string that starts at the beginning of a buffer. -/
def cstr (buf : List Byte) : List Byte :=
  buf.takeWhile (fun b => b != 0)

/-- The C library function `strlen` applied to the beginning of a buffer. -/
def strlen (buf : List Byte) : Nat :=
  (cstr buf).length

/-- Memory read through a pointer to the first element of an array; offsets past
the array read as NUL (no caller of this development reads there). -/
def mem (a : List Byte) : Nat → Byte :=
  fun i => a.getD i 0

/-! ## `sanitize` -/

/-- The test `str[i] < 0x20 || str[i] > 0x7e` of `sanitize`. -/
def dropped (signedChar : Bool) (b : Byte) : Bool :=
  decide (charVal signedChar b < 0x20) || decide (charVal signedChar b > 0x7e)

/-- The loop `for (i=0,j=0; i<len; i++)` of `sanitize`; the first argument is the
number `len - i` of iterations still to run. -/
def sanitizeLoop (signedChar : Bool) (str : Nat → Byte) :
    Nat → Nat → Nat → List Byte → Nat × List Byte
  | 0, _, j, buffer => (j, buffer)
  | n + 1, i, j, buffer =>
    if dropped signedChar (str i) then
      sanitizeLoop signedChar str n (i + 1) j buffer
    else
      sanitizeLoop signedChar str n (i + 1) (j + 1) (buffer.set j (str i))

/-- The function `sanitize(str, len)`: `none` is the `NULL` returned for an
oversize input, `some buffer` is the content of the static array
`buffer[BUFFLEN+2]` the returned pointer refers to. -/
def sanitize (signedChar : Bool) (str : Nat → Byte) (len : Nat) : Option (List Byte) :=
  if len > BUFFLEN then
    none
  else
    let buffer := List.replicate (BUFFLEN + 2) (0 : Byte)
    let r := sanitizeLoop signedChar str len 0 0 buffer
    if r.1 > 0 then
      some (r.2.set r.1 0x0a)
    else
      some r.2

/-- The loop of `sanitize` when `str` is the pointer a previous call returned,
that is the static array `buffer` itself: `str[i]` is read from the array as
the earlier iterations left it. -/
def sanitizeLoopOnReturned (signedChar : Bool) :
    Nat → Nat → Nat → List Byte → Nat × List Byte
  | 0, _, j, buffer => (j, buffer)
  | n + 1, i, j, buffer =>
    if dropped signedChar (buffer.getD i 0) then
      sanitizeLoopOnReturned signedChar n (i + 1) j buffer
    else
      sanitizeLoopOnReturned signedChar n (i + 1) (j + 1) (buffer.set j (buffer.getD i 0))

/-- The call `sanitize(ptr, len)` where `ptr` is the pointer a previous call of
`sanitize` returned: `memset` zeroes the static array, which is also the input,
before the loop reads it. -/
def sanitizeOnReturned (signedChar : Bool) (len : Nat) : Option (List Byte) :=
  if len > BUFFLEN then
    none
  else
    let buffer := List.replicate (BUFFLEN + 2) (0 : Byte)
    let r := sanitizeLoopOnReturned signedChar len 0 0 buffer
    if r.1 > 0 then
      some (r.2.set r.1 0x0a)
    else
      some r.2

/-- Printable ASCII: the range [0x20, 0x7E]. -/
def printable (b : Byte) : Bool :=
  decide (0x20 ≤ b.val) && decide (b.val ≤ 0x7e)

/-- The first `len` bytes behind a pointer. -/
def firstBytes (str : Nat → Byte) (len : Nat) : List Byte :=
  (List.range len).map str

/-- The line the specification of the sanitizer describes: the printable bytes
in their order, then one line feed when there is at least one of them. -/
def sanitizedLine (bytes : List Byte) : List Byte :=
  if bytes.filter printable = [] then [] else bytes.filter printable ++ [0x0a]

/-! ## The server: data -/

/-- The C type `struct sockaddr_in`: address family, port and IPv4 address of a
peer. Two values are equal exactly when `memcmp` over the whole structure is 0. -/
structure sockaddr_in where
  sin_family : Nat
  sin_port : Nat
  sin_addr : Nat
  deriving DecidableEq

/-- What `memset(&safrom, 0, sizeof(safrom))` leaves in `safrom`. -/
def sockaddr_in.zeroed : sockaddr_in := ⟨0, 0, 0⟩

/-- The C type `struct client`: peer address `sa` and connection handle `sd`
(the `list` member is the position in the registry). -/
structure client where
  sa : sockaddr_in
  sd : Int
  deriving DecidableEq

/-- The C type `fd_set`, as the list of the descriptors that are members. -/
abbrev fd_set := List Int

/-- The constant `FD_SETSIZE`: the number of bits of an `fd_set`. -/
def FD_SETSIZE : Int := 1024

/-- The macro `FD_SET(fd, &set)`. For a descriptor outside `[0, FD_SETSIZE)` the
bit it writes lies outside the array: the members stay as they are (what the
write hits instead is not represented). -/
def FD_SET (fd : Int) (set : fd_set) : fd_set :=
  if fd < 0 ∨ FD_SETSIZE ≤ fd then set
  else if fd ∈ set then set else fd :: set

/-- The macro `FD_CLR(fd, &set)`. -/
def FD_CLR (fd : Int) (set : fd_set) : fd_set :=
  set.filter (fun x => x != fd)

/-- The macro `FD_ISSET(fd, &set)`. -/
def FD_ISSET (fd : Int) (set : fd_set) : Bool :=
  decide (fd ∈ set)

/-- The macro `MAX(a, b)`. -/
def MAX (a b : Int) : Int :=
  if a < b then b else a

/-- The constant `STDIN_FILENO`. -/
def STDIN_FILENO : Int := 0

/-- The signal number `SIGINT`. -/
def SIGINT : Nat := 2

/-- The signal number `SIGTERM`. -/
def SIGTERM : Nat := 15

/-- Modelled from the spec: `list.h` (`LIST_HEAD`, `list_add`, `list_del`,
`list_for_each_entry`, `list_for_each_entry_safe`) is not among the sources. The
registry `cl` is the ordered sequence of clients the specification describes,
here a list in iteration order; `list_add(&c->list, &cl)` puts the new entry
right behind the list head, so it is the first one an iteration visits. The two
iteration macros visit the entries front to back; `list_del` on the entry being
visited takes it out and the `_safe` iteration goes on with its successor. -/
def list_add (c : client) (cl : List client) : List client :=
  c :: cl

/-! ## The server: results of the system calls -/

/-- Outcome of `select`: failure with `EINTR`, another failure, or the
descriptors reported readable. -/
inductive SelectResult where
  | eintr
  | error
  | ready (fds : List Int)

/-- Outcome of `accept`: failure with `EINTR`, another failure, or a new
connection handle (never negative) and the peer address. -/
inductive AcceptResult where
  | eintr
  | error
  | conn (csd : Nat) (peer : sockaddr_in)

/-- Outcome of `recv`: failure with `EINTR`, with `ECONNRESET`, another failure,
or the bytes received (none at end of stream). -/
inductive RecvResult where
  | eintr
  | econnreset
  | error
  | data (bytes : List Byte)

/-- Outcome of `send`: a non-negative return value, or failure with `EINTR`,
`EPIPE`, `ECONNRESET` or another error. -/
inductive SendResult where
  | sent
  | eintr
  | epipe
  | econnreset
  | error
  deriving DecidableEq

/-- What the operating system answers during one turn of the `while (run)` loop:
the outcome of `select`, of `accept` and of `fgets` (`none` is `NULL`) should
they be called, the outcome of the `recv` and of the `send` on each handle (a
turn calls each of them at most once per registry entry), and the signals whose
handler ran during the turn. -/
structure TurnEnv where
  select : SelectResult
  accept : AcceptResult
  fgets : Option (List Byte)
  recv : Int → RecvResult
  send : Int → SendResult
  signals : List Nat

/-- One call of `send`: handle, bytes passed, outcome. -/
structure SendCall where
  fd : Int
  payload : List Byte
  result : SendResult
  deriving DecidableEq

/-- Ways a turn ends the defined behaviour of the process: `exit(1)` after a
fatal error, `strlen` applied to the `NULL` returned by `sanitize`, or `FD_SET`
writing outside the watch set for a handle that is not below `FD_SETSIZE`. -/
inductive Halt where
  | exit1
  | nullDeref
  | outOfBounds
  deriving DecidableEq

/-! ## The server: one turn of the loop -/

/-- The variables a turn works on besides the registry: the watch set `rfds`,
`buffer`, `ptr` (`none` is `NULL`, `some b` the static array of `sanitize`),
`safrom`, the `recv` and `send` calls made so far and whether the process was
ended. -/
structure Frame where
  rfds : fd_set
  buffer : List Byte
  ptr : Option (List Byte)
  safrom : sockaddr_in
  recvs : List Int
  sends : List SendCall
  halt : Option Halt

/-- What `recv(c->sd, buffer, sizeof(buffer)-1, O_NONBLOCK)` leaves in `buffer`
when the bytes `bytes` arrive: at most `BUFFLEN - 1` of them are stored at the
start of the array, the rest of the array is untouched. -/
def recvInto (bytes : List Byte) (buffer : List Byte) : List Byte :=
  let ret := min bytes.length (BUFFLEN - 1)
  bytes.take ret ++ buffer.drop ret

/-- The loop `list_for_each_entry(c, &cl, list)` of the client branch of `main`,
run over the entries still to visit; returns these entries as the loop leaves
them and the variables. `rfd` is the set `select` filled in. -/
def serve (signedChar : Bool) (env : TurnEnv) (rfd : fd_set) :
    List client → Frame → List client × Frame
  | [], f => ([], f)
  | c :: rest, f =>
    if !FD_ISSET c.sd rfd then
      let r := serve signedChar env rfd rest f
      (c :: r.1, r.2)
    else
      let f1 := { f with recvs := f.recvs ++ [c.sd] }
      match env.recv c.sd with
      | .eintr =>
        let r := serve signedChar env rfd rest f1
        (c :: r.1, r.2)
      | .econnreset => (rest, { f1 with rfds := FD_CLR c.sd f1.rfds })
      | .error => (c :: rest, { f1 with halt := some .exit1 })
      | .data bytes =>
        let ret := min bytes.length (BUFFLEN - 1)
        if ret = 0 then
          (rest, { f1 with rfds := FD_CLR c.sd f1.rfds })
        else
          let buffer := recvInto bytes f1.buffer
          match sanitize signedChar (mem buffer) (strlen buffer) with
          | none => (c :: rest, { f1 with buffer := buffer, ptr := none, halt := some .nullDeref })
          | some p =>
            if strlen p = 0 then
              let r := serve signedChar env rfd rest { f1 with buffer := buffer, ptr := some p }
              (c :: r.1, r.2)
            else
              (c :: rest, { f1 with buffer := buffer, ptr := some p, safrom := c.sa })

/-- The loop `list_for_each_entry_safe(c, tmp, &cl, list)` that relays the
message `ptr` points to (`p` is the array behind `ptr`), run over the entries
still to visit; returns these entries as the loop leaves them and the
variables. -/
def relay (env : TurnEnv) (p : List Byte) : List client → Frame → List client × Frame
  | [], f => ([], f)
  | c :: rest, f =>
    if c.sa = f.safrom then
      let r := relay env p rest f
      (c :: r.1, r.2)
    else
      let f1 := { f with sends := f.sends ++ [⟨c.sd, cstr p, env.send c.sd⟩] }
      match env.send c.sd with
      | .sent =>
        let r := relay env p rest f1
        (c :: r.1, r.2)
      | .eintr =>
        let r := relay env p rest f1
        (c :: r.1, r.2)
      | .epipe => relay env p rest { f1 with rfds := FD_CLR c.sd f1.rfds }
      | .econnreset => relay env p rest { f1 with rfds := FD_CLR c.sd f1.rfds }
      | .error => (c :: rest, { f1 with halt := some .exit1 })

/-- The function `sighandler`, as its effect on the flag `run`. -/
def sighandler (signo : Nat) (run : Bool) : Bool :=
  if signo = SIGINT ∨ signo = SIGTERM then false else run

/-- The state `main` carries from one turn to the next: registry `cl`, watch set
`rfds`, `maxfd` and the flag `run`. -/
structure Server where
  cl : List client
  rfds : fd_set
  maxfd : Int
  run : Bool

/-- What one turn did: the state it leaves, the handles `recv` was called on,
the `send` calls, and whether it ended the process. -/
structure TurnResult where
  state : Server
  recvs : List Int
  sends : List SendCall
  halt : Option Halt

/-- The flag `run` after the handlers of the signals of a turn ran. -/
def afterSignals (env : TurnEnv) (run : Bool) : Bool :=
  env.signals.foldl (fun r signo => sighandler signo r) run

/-- What `fgets(buffer, sizeof(buffer), stdin)` leaves in `buffer` when it read
the bytes `line`: at most `BUFFLEN - 1` of them, then a NUL. -/
def fgetsInto (line : List Byte) (buffer : List Byte) : List Byte :=
  let n := min line.length (BUFFLEN - 1)
  line.take n ++ [0] ++ buffer.drop (n + 1)

/-- The set `rfd` after `rfd = rfds; select(maxfd+1, &rfd, NULL, NULL, NULL)`
when the descriptors `fds` are readable: the watched descriptors below
`maxfd + 1` that are readable. -/
def selected (st : Server) (fds : List Int) : fd_set :=
  st.rfds.filter (fun x => decide (x ∈ fds) && decide (x < st.maxfd + 1))

/-- The variables of a turn as the top of the loop body sets them: `rfds` as
the last turn left it, `buffer` and `safrom` zeroed, `ptr` null. -/
def Frame.fresh (st : Server) : Frame :=
  { rfds := st.rfds, buffer := List.replicate BUFFLEN 0, ptr := none,
    safrom := sockaddr_in.zeroed, recvs := [], sends := [], halt := none }

/-- The tail of a turn from `if (!ptr) continue;` on: the relay loop when `ptr`
is not `NULL`. -/
def relayPhase (env : TurnEnv) (st : Server) (cl : List client) (f : Frame) : TurnResult :=
  match f.ptr with
  | none =>
    { state := { st with cl := cl, rfds := f.rfds, run := afterSignals env st.run },
      recvs := f.recvs, sends := f.sends, halt := f.halt }
  | some p =>
    let r := relay env p cl f
    { state := { st with cl := r.1, rfds := r.2.rfds, run := afterSignals env st.run },
      recvs := r.2.recvs, sends := r.2.sends, halt := r.2.halt }

/-- One turn of the loop `while (run)` of `main`; `sd` is the listening socket. -/
def turn (signedChar : Bool) (sd : Int) (st : Server) (env : TurnEnv) : TurnResult :=
  let f0 : Frame := Frame.fresh st
  let idle (s : Server) : TurnResult :=
    { state := { s with run := afterSignals env s.run }, recvs := [], sends := [], halt := none }
  let dead (h : Halt) : TurnResult :=
    { state := st, recvs := [], sends := [], halt := some h }
  match env.select with
  | .eintr => idle st
  | .error => dead .exit1
  | .ready fds =>
    let rfd : fd_set := selected st fds
    if rfd.length = 0 then
      idle st
    else if FD_ISSET sd rfd then
      match env.accept with
      | .eintr => idle st
      | .error => dead .exit1
      | .conn csd peer =>
        let c : client := { sa := peer, sd := (csd : Int) }
        let added : Server :=
          { st with cl := list_add c st.cl, rfds := FD_SET c.sd st.rfds,
                    maxfd := MAX st.maxfd c.sd }
        if c.sd < FD_SETSIZE then
          idle added
        else
          { state := added, recvs := [], sends := [], halt := some .outOfBounds }
    else if FD_ISSET STDIN_FILENO rfd then
      match env.fgets with
      | none => idle { st with run := false }
      | some line =>
        let buffer := fgetsInto line f0.buffer
        match sanitize signedChar (mem buffer) (strlen buffer) with
        | none => dead .nullDeref
        | some p =>
          if strlen p = 0 then
            idle st
          else
            relayPhase env st st.cl { f0 with buffer := buffer, ptr := some p }
    else
      let r := serve signedChar env rfd st.cl f0
      match r.2.halt with
      | some h => { state := { st with cl := r.1, rfds := r.2.rfds }, recvs := r.2.recvs,
                    sends := r.2.sends, halt := some h }
      | none => relayPhase env st r.1 r.2

/-- The send failures after which the relay loop takes the client out of the
registry: `EPIPE` and `ECONNRESET`. -/
def SendResult.gone : SendResult → Bool
  | .epipe => true
  | .econnreset => true
  | _ => false

/-- The entries of a registry whose peer address differs from `safrom`. -/
def recipients (safrom : sockaddr_in) (cl : List client) : List client :=
  cl.filter (fun c => decide (c.sa ≠ safrom))

/-- The `send` call of the relay loop for client `c` and the array `p` behind
`ptr`. -/
def sendCall (env : TurnEnv) (p : List Byte) (c : client) : SendCall :=
  ⟨c.sd, cstr p, env.send c.sd⟩

/-- The entries of a registry the relay loop leaves in place: those it does not
send to, and those whose `send` did not fail with `EPIPE` or `ECONNRESET`. -/
def survivors (env : TurnEnv) (safrom : sockaddr_in) (cl : List client) : List client :=
  cl.filter (fun c => decide (c.sa = safrom) || !(env.send c.sd).gone)

/-- The handles the relay loop clears from the watch set. -/
def cleared (env : TurnEnv) (safrom : sockaddr_in) (cl : List client) : List Int :=
  ((recipients safrom cl).filter (fun c => (env.send c.sd).gone)).map client.sd

/-- A turn in which `select` reports neither the listening socket `sd` nor
standard input, the registry is `pre ++ A :: post`, no client of `pre` is
ready, `A` is ready and `recv` on `A` returns the bytes `bytes`, at least one
and at most `BUFFLEN - 1`: the read on `A` is the first read of the turn. -/
def readsFirst (sd : Int) (st : Server) (env : TurnEnv) (pre : List client) (A : client)
    (post : List client) (bytes : List Byte) : Prop :=
  ∃ fds, env.select = .ready fds ∧
    FD_ISSET sd (selected st fds) = false ∧
    FD_ISSET STDIN_FILENO (selected st fds) = false ∧
    st.cl = pre ++ A :: post ∧
    (∀ c ∈ pre, FD_ISSET c.sd (selected st fds) = false) ∧
    FD_ISSET A.sd (selected st fds) = true ∧
    env.recv A.sd = .data bytes ∧
    1 ≤ bytes.length ∧ bytes.length ≤ BUFFLEN - 1

/-- Example client on handle 4. -/
def clientA : client := ⟨⟨2, 40001, 167772161⟩, 4⟩

/-- Example client on handle 5. -/
def clientB : client := ⟨⟨2, 40002, 167772162⟩, 5⟩

/-- Example client on handle 6. -/
def clientC : client := ⟨⟨2, 40003, 167772163⟩, 6⟩

/-- Example client on handle 8. -/
def clientD : client := ⟨⟨2, 40004, 167772164⟩, 8⟩

/-- Example client on handle 7 whose peer address is that of `clientA`. -/
def clientA2 : client := ⟨⟨2, 40001, 167772161⟩, 7⟩

/-- Server state with listening socket 3 and the given registry, every handle
watched. -/
def watching (cl : List client) : Server :=
  { cl := cl, rfds := 3 :: 0 :: cl.map client.sd, maxfd := 7, run := true }

/-- Answers of a turn in which `select` reports the handles `ready` and `recv`
and `send` answer as given. -/
def answers (ready : List Int) (recv : Int → RecvResult) (send : Int → SendResult) : TurnEnv :=
  { select := .ready ready
    accept := .eintr
    fgets := none
    recv := recv
    send := send
    signals := [] }

theorem dropped_eq (signedChar : Bool) (b : Byte) :
    dropped signedChar b = !printable b := by
  have hb := b.isLt
  cases signedChar <;> simp only [dropped, charVal, printable, Bool.false_and, Bool.true_and]
  · simp only [Bool.false_eq_true, if_false]
    by_cases h1 : 0x20 ≤ b.val <;> by_cases h2 : b.val ≤ 0x7e <;> simp [h1, h2] <;> omega
  · by_cases h0 : 128 ≤ b.val
    · simp only [h0, decide_True, if_true]
      by_cases h1 : 0x20 ≤ b.val <;> by_cases h2 : b.val ≤ 0x7e <;> simp [h1, h2] <;> omega
    · simp only [h0, decide_False, Bool.false_eq_true, if_false]
      by_cases h1 : 0x20 ≤ b.val <;> by_cases h2 : b.val ≤ 0x7e <;> simp [h1, h2] <;> omega

theorem set_length_append_zeros (acc : List Byte) (b : Byte) (k : Nat) :
    (acc ++ List.replicate (k + 1) (0 : Byte)).set acc.length b
      = (acc ++ [b]) ++ List.replicate k (0 : Byte) := by
  rw [List.set_append_right _ _ (Nat.le_refl _)]
  simp [List.replicate_succ]

/-- Invariant of the loop of `sanitize`: the array holds the bytes kept so far
followed by zeros, and `j` is the number of bytes kept. -/
theorem sanitizeLoop_spec (signedChar : Bool) (str : Nat → Byte) (L : Nat) :
    ∀ (n i : Nat) (acc : List Byte), acc.length + n ≤ L →
      sanitizeLoop signedChar str n i acc.length (acc ++ List.replicate (L - acc.length) 0)
        = ((acc ++ ((List.range' i n).map str).filter printable).length,
           (acc ++ ((List.range' i n).map str).filter printable)
             ++ List.replicate
                 (L - (acc ++ ((List.range' i n).map str).filter printable).length) 0) := by
  intro n
  induction n with
  | zero => intro i acc _; simp [sanitizeLoop]
  | succ n ih =>
    intro i acc h
    rw [sanitizeLoop, dropped_eq, List.range'_succ]
    by_cases hp : printable (str i) = true
    · simp only [hp, Bool.not_true, Bool.false_eq_true, if_false, List.map_cons,
        List.filter_cons_of_pos]
      have hL : L - acc.length = (L - (acc.length + 1)) + 1 := by omega
      rw [hL, set_length_append_zeros]
      have := ih (i + 1) (acc ++ [str i]) (by simp; omega)
      simp only [List.length_append, List.length_singleton, List.append_assoc,
        List.singleton_append] at this
      simpa using this
    · have hp2 : printable (str i) = false := by simpa using hp
      simp only [hp2, Bool.not_false, if_true, List.map_cons]
      rw [List.filter_cons_of_neg (by simp [hp2])]
      exact ih (i + 1) acc (by omega)

theorem cstr_line (acc : List Byte) (k : Nat) (hacc : ∀ b ∈ acc, printable b = true) :
    cstr ((acc ++ [0x0a]) ++ List.replicate (k + 1) (0 : Byte)) = acc ++ [0x0a] := by
  unfold cstr
  rw [List.takeWhile_append_of_pos]
  · simp [List.replicate_succ]
  · intro a ha
    rcases List.mem_append.1 ha with h | h
    · have := hacc a h
      simp only [printable, Bool.and_eq_true, decide_eq_true_eq] at this
      have h0 : a ≠ 0 := by
        intro e; rw [e] at this; simp at this
      simpa using h0
    · simp at h; rw [h]; decide

theorem cstr_zeros (k : Nat) : cstr (List.replicate k (0 : Byte)) = [] := by
  cases k <;> simp [cstr, List.replicate_succ]

/-- What `sanitize` returns for an input it accepts, read as a C string. -/
theorem sanitize_cstr (signedChar : Bool) (str : Nat → Byte) (len : Nat)
    (h : len ≤ BUFFLEN) :
    ∃ buffer, sanitize signedChar str len = some buffer ∧
      buffer.length = BUFFLEN + 2 ∧
      cstr buffer = sanitizedLine (firstBytes str len) := by
  have hspec := sanitizeLoop_spec signedChar str (BUFFLEN + 2) len 0 [] (by simp; omega)
  simp only [List.length_nil, List.nil_append, Nat.sub_zero] at hspec
  have hlen : (((List.range' 0 len).map str).filter printable).length ≤ len := by
    calc (((List.range' 0 len).map str).filter printable).length
        ≤ ((List.range' 0 len).map str).length := List.length_filter_le _ _
      _ = len := by simp
  unfold sanitize
  rw [if_neg (by omega)]
  simp only [hspec, firstBytes, List.range_eq_range', sanitizedLine]
  generalize hf : ((List.range' 0 len).map str).filter printable = f at hlen
  have hfp : ∀ b ∈ f, printable b = true := by
    intro b hb; rw [← hf] at hb; exact (List.mem_filter.1 hb).2
  by_cases hnil : f = []
  · subst hnil
    simp [cstr_zeros]
  · have hpos : 0 < f.length := List.length_pos.2 hnil
    rw [if_pos hpos, if_neg hnil]
    have hk : BUFFLEN + 2 - f.length = (BUFFLEN - f.length) + 1 + 1 := by omega
    rw [hk, set_length_append_zeros]
    refine ⟨_, rfl, ?_, cstr_line f _ hfp⟩
    simp; omega

theorem sanitize_none (signedChar : Bool) (str : Nat → Byte) (len : Nat) :
    sanitize signedChar str len = none ↔ BUFFLEN < len := by
  unfold sanitize
  by_cases h : len > BUFFLEN
  · simp [h]
  · obtain ⟨buffer, hb, _⟩ := sanitize_cstr signedChar str len (by omega)
    unfold sanitize at hb
    rw [hb]
    constructor
    · intro hh; cases hh
    · intro hh; omega

theorem firstBytes_mem (l : List Byte) : firstBytes (mem l) l.length = l := by
  apply List.ext_getElem
  · simp [firstBytes]
  · intro n h1 h2
    simp [firstBytes, mem, List.getD_eq_getElem?_getD, List.getElem?_eq_getElem h2]

theorem filter_printable_sanitizedLine (bytes : List Byte) :
    (sanitizedLine bytes).filter printable = bytes.filter printable := by
  unfold sanitizedLine
  by_cases h : bytes.filter printable = []
  · simp [h]
  · rw [if_neg h, List.filter_append, List.filter_filter]
    have : List.filter printable [(0x0a : Byte)] = [] := by decide
    rw [this]
    simp

theorem sanitizedLine_congr (l₁ l₂ : List Byte)
    (h : l₁.filter printable = l₂.filter printable) :
    sanitizedLine l₁ = sanitizedLine l₂ := by
  unfold sanitizedLine
  rw [h]

theorem sanitizedLine_idem (bytes : List Byte) :
    sanitizedLine (sanitizedLine bytes) = sanitizedLine bytes :=
  sanitizedLine_congr _ _ (filter_printable_sanitizedLine bytes)

theorem firstBytes_mem_replicate (n : Nat) (a : Byte) :
    firstBytes (mem (List.replicate n a)) n = List.replicate n a := by
  have h := firstBytes_mem (List.replicate n a)
  rwa [List.length_replicate] at h

theorem filter_printable_replicate (n : Nat) (a : Byte) (ha : printable a = true) :
    (List.replicate n a).filter printable = List.replicate n a := by
  rw [List.filter_eq_self]
  intro b hb
  rw [List.eq_of_mem_replicate hb]
  exact ha

theorem length_sanitizedLine (bytes : List Byte) :
    (sanitizedLine bytes).length
      = if bytes.filter printable = [] then 0 else (bytes.filter printable).length + 1 := by
  unfold sanitizedLine
  split <;> simp

theorem getD_zeros (k i : Nat) : (List.replicate k (0 : Byte)).getD i 0 = 0 := by
  rw [List.getD_eq_getElem?_getD, List.getElem?_replicate]
  split <;> rfl

theorem sanitizeLoopOnReturned_zeros (signedChar : Bool) (k : Nat) :
    ∀ (n i : Nat), sanitizeLoopOnReturned signedChar n i 0 (List.replicate k 0)
      = (0, List.replicate k 0) := by
  intro n
  induction n with
  | zero => intro i; rfl
  | succ n ih =>
    intro i
    rw [sanitizeLoopOnReturned, getD_zeros, dropped_eq]
    have h0 : printable (0 : Byte) = false := by decide
    rw [h0]
    simp only [Bool.not_false, if_true]
    exact ih (i + 1)

/-- What `sanitize` returns when its input is the pointer a previous call
returned: the zeroed array, the empty string. -/
theorem sanitizeOnReturned_empty (signedChar : Bool) (len : Nat) (h : len ≤ BUFFLEN) :
    ∃ buffer, sanitizeOnReturned signedChar len = some buffer ∧ cstr buffer = [] := by
  unfold sanitizeOnReturned
  rw [if_neg (by omega)]
  simp only [sanitizeLoopOnReturned_zeros, Nat.lt_irrefl, if_false]
  exact ⟨_, rfl, cstr_zeros _⟩

/-! ## The sanitizer: claims -/

/-- C1: for every input and every `len <= 1024`, `sanitize(str, len)` returns a
string that is exactly the bytes of the first `len` whose value lies in
[0x20, 0x7E], in their order, followed by one 0x0A when there is such a byte,
and the empty string when there is none. -/
theorem sanitize_keeps_printable_in_order (signedChar : Bool) (str : Nat → Byte) (len : Nat)
    (h : len ≤ 1024) :
    ∃ buffer, sanitize signedChar str len = some buffer ∧
      cstr buffer = sanitizedLine (firstBytes str len) ∧
      (((firstBytes str len).filter
          (fun b => decide (0x20 ≤ b.val) && decide (b.val ≤ 0x7e)) = [] → cstr buffer = []) ∧
       ((firstBytes str len).filter
          (fun b => decide (0x20 ≤ b.val) && decide (b.val ≤ 0x7e)) ≠ [] →
         cstr buffer = (firstBytes str len).filter
          (fun b => decide (0x20 ≤ b.val) && decide (b.val ≤ 0x7e)) ++ [0x0a])) := by
  obtain ⟨buffer, hb, _, hc⟩ := sanitize_cstr signedChar str len h
  refine ⟨buffer, hb, hc, ?_, ?_⟩
  · intro hnil
    rw [hc, sanitizedLine]
    exact if_pos hnil
  · intro hne
    rw [hc, sanitizedLine]
    exact if_neg hne

/-- The example of C1: the six bytes 'A', 0x01, 'B', 0x7F, 'C', 0x7E give
"ABC~" and a line feed. -/
theorem sanitize_keeps_printable_in_order_witness :
    (6 ≤ 1024) ∧
    ∃ buffer, sanitize true (mem [0x41, 0x01, 0x42, 0x7f, 0x43, 0x7e]) 6 = some buffer ∧
      cstr buffer = [0x41, 0x42, 0x43, 0x7e, 0x0a] := by
  refine ⟨by decide, ?_⟩
  obtain ⟨buffer, hb, hc, _⟩ :=
    sanitize_keeps_printable_in_order true (mem [0x41, 0x01, 0x42, 0x7f, 0x43, 0x7e]) 6
      (by decide)
  refine ⟨buffer, hb, ?_⟩
  rw [hc]
  decide

/-- C7: `sanitize(str, len)` returns `NULL` if and only if `len > 1024`; for
every `len <= 1024`, 1024 included, it returns a string that holds every
printable byte of the input (nothing is cut off) and is empty or ends in the
line feed. -/
theorem sanitize_rejects_iff_oversize (signedChar : Bool) (str : Nat → Byte) (len : Nat) :
    (sanitize signedChar str len = none ↔ 1024 < len) ∧
    (len ≤ 1024 →
      ∃ buffer, sanitize signedChar str len = some buffer ∧
        (cstr buffer).filter printable = (firstBytes str len).filter printable ∧
        (cstr buffer = [] ∨ cstr buffer = (firstBytes str len).filter printable ++ [0x0a])) := by
  refine ⟨sanitize_none signedChar str len, ?_⟩
  intro h
  obtain ⟨buffer, hb, _, hc⟩ := sanitize_cstr signedChar str len h
  refine ⟨buffer, hb, ?_, ?_⟩
  · rw [hc, filter_printable_sanitizedLine]
  · rw [hc, sanitizedLine]
    split
    · exact Or.inl rfl
    · exact Or.inr rfl

/-- C7 at the two sides of the limit: 1025 bytes are rejected, 1024 printable
bytes come back in full, 1025 bytes with the line feed. -/
theorem sanitize_rejects_iff_oversize_witness :
    sanitize true (mem (List.replicate 1025 0x61)) 1025 = none ∧
    ∃ buffer, sanitize true (mem (List.replicate 1024 0x61)) 1024 = some buffer ∧
      cstr buffer = List.replicate 1024 0x61 ++ [0x0a] := by
  constructor
  · exact (sanitize_rejects_iff_oversize true (mem (List.replicate 1025 0x61)) 1025).1.2
      (by decide)
  · obtain ⟨buffer, hb, hc⟩ :=
      (sanitize_rejects_iff_oversize true (mem (List.replicate 1024 0x61)) 1024).2 (by decide)
    refine ⟨buffer, hb, ?_⟩
    rw [firstBytes_mem_replicate, filter_printable_replicate 1024 0x61 (by decide)] at hc
    rcases hc with ⟨hc1, hc | hc⟩
    · exfalso
      rw [hc] at hc1
      have hl := congrArg List.length hc1
      rw [List.length_replicate] at hl
      simp at hl
    · exact hc

/-- C8 as stated fails in two ways. The output of `sanitize` is its static
array, which the next call zeroes before reading: `sanitize` applied to the
pointer it returned for "hi" and a line feed gives the empty string. And 1024
printable bytes give a 1025-byte line: `sanitize` applied to that line with
its full length, even from a copy, returns `NULL`. -/
theorem sanitize_twice_rejects_full_line :
    (∃ out, sanitize true (mem [0x68, 0x69, 0x0a]) 3 = some out ∧
      cstr out = [0x68, 0x69, 0x0a] ∧
      ∃ out2, sanitizeOnReturned true (strlen out) = some out2 ∧ cstr out2 = []) ∧
    (List.replicate 1024 (0x61 : Byte)).length ≤ 1024 ∧
    ∃ out, sanitize true (mem (List.replicate 1024 0x61)) 1024 = some out ∧
      strlen out = 1025 ∧
      sanitize true (mem (cstr out)) (strlen out) = none := by
  refine ⟨?_, by rw [List.length_replicate], ?_⟩
  · obtain ⟨out, ho, _, hc⟩ := sanitize_cstr true (mem [0x68, 0x69, 0x0a]) 3 (by decide)
    have hline : sanitizedLine (firstBytes (mem [0x68, 0x69, 0x0a]) 3) = [0x68, 0x69, 0x0a] := by
      decide
    rw [hline] at hc
    have hl : strlen out = 3 := by
      unfold strlen; rw [hc]; rfl
    refine ⟨out, ho, hc, ?_⟩
    rw [hl]
    exact sanitizeOnReturned_empty true 3 (by decide)
  · obtain ⟨out, ho, _, hc⟩ :=
      sanitize_cstr true (mem (List.replicate 1024 0x61)) 1024 (by decide)
    have hl : strlen out = 1025 := by
      unfold strlen
      rw [hc, length_sanitizedLine, firstBytes_mem_replicate,
        filter_printable_replicate 1024 0x61 (by decide), List.length_replicate]
      rw [if_neg]
      intro h0
      have := congrArg List.length h0
      rw [List.length_replicate] at this
      simp at this
    refine ⟨out, ho, hl, ?_⟩
    rw [hl]
    exact (sanitize_none true _ 1025).2 (by decide)

/-- C8, amended: when the input has at most 1023 printable bytes among its
first `len <= 1024` (so always when `len <= 1023`), `sanitize` applied to a
copy of the output of `sanitize`, taken with its full length, returns that same
output; applied to the returned pointer itself, whose array the call zeroes
first, it returns the empty string. -/
theorem sanitize_idempotent_below_limit (signedChar : Bool) (str : Nat → Byte) (len : Nat)
    (h : len ≤ 1024) (hk : ((firstBytes str len).filter printable).length ≤ 1023) :
    ∃ out, sanitize signedChar str len = some out ∧
      (∃ out2, sanitize signedChar (mem (cstr out)) (strlen out) = some out2 ∧
        cstr out2 = cstr out) ∧
      (∃ out3, sanitizeOnReturned signedChar (strlen out) = some out3 ∧ cstr out3 = []) := by
  obtain ⟨out, ho, _, hc⟩ := sanitize_cstr signedChar str len h
  have hl : strlen out ≤ BUFFLEN := by
    unfold strlen
    rw [hc, length_sanitizedLine]
    unfold BUFFLEN
    split <;> omega
  obtain ⟨out2, ho2, _, hc2⟩ := sanitize_cstr signedChar (mem (cstr out)) (strlen out) hl
  refine ⟨out, ho, ⟨out2, ho2, ?_⟩, sanitizeOnReturned_empty signedChar (strlen out) hl⟩
  rw [hc2]
  unfold strlen
  rw [firstBytes_mem, hc, sanitizedLine_idem]

/-- The example of C8: "hi" and a line feed, length 3, comes back unchanged from
`sanitize` and from `sanitize` applied to a copy of that output. -/
theorem sanitize_idempotent_below_limit_witness :
    (3 ≤ 1024) ∧
    ((firstBytes (mem [0x68, 0x69, 0x0a]) 3).filter printable).length ≤ 1023 ∧
    ∃ out, sanitize true (mem [0x68, 0x69, 0x0a]) 3 = some out ∧
      (∃ out2, sanitize true (mem (cstr out)) (strlen out) = some out2 ∧
        cstr out2 = cstr out) ∧
      (∃ out3, sanitizeOnReturned true (strlen out) = some out3 ∧ cstr out3 = []) :=
  ⟨by decide, by decide,
    sanitize_idempotent_below_limit true (mem [0x68, 0x69, 0x0a]) 3 (by decide) (by decide)⟩

/-! ## The relay loop -/

theorem recipients_cons_eq {safrom : sockaddr_in} {c : client} (rest : List client)
    (h : c.sa = safrom) : recipients safrom (c :: rest) = recipients safrom rest := by
  unfold recipients
  rw [List.filter_cons_of_neg]
  simp [h]

theorem recipients_cons_ne {safrom : sockaddr_in} {c : client} (rest : List client)
    (h : c.sa ≠ safrom) : recipients safrom (c :: rest) = c :: recipients safrom rest := by
  unfold recipients
  rw [List.filter_cons_of_pos]
  simp [h]

theorem survivors_cons_keep {env : TurnEnv} {safrom : sockaddr_in} {c : client}
    (rest : List client) (h : c.sa = safrom ∨ (env.send c.sd).gone = false) :
    survivors env safrom (c :: rest) = c :: survivors env safrom rest := by
  unfold survivors
  rw [List.filter_cons_of_pos]
  rcases h with h | h <;> simp [h]

theorem survivors_cons_drop {env : TurnEnv} {safrom : sockaddr_in} {c : client}
    (rest : List client) (h : c.sa ≠ safrom) (hg : (env.send c.sd).gone = true) :
    survivors env safrom (c :: rest) = survivors env safrom rest := by
  unfold survivors
  rw [List.filter_cons_of_neg]
  simp [h, hg]

theorem cleared_cons_keep {env : TurnEnv} {safrom : sockaddr_in} {c : client}
    (rest : List client) (h : c.sa = safrom ∨ (env.send c.sd).gone = false) :
    cleared env safrom (c :: rest) = cleared env safrom rest := by
  unfold cleared
  by_cases hsa : c.sa = safrom
  · rw [recipients_cons_eq rest hsa]
  · rw [recipients_cons_ne rest hsa, List.filter_cons_of_neg]
    rcases h with h | h
    · exact absurd h hsa
    · simp [h]

theorem cleared_cons_drop {env : TurnEnv} {safrom : sockaddr_in} {c : client}
    (rest : List client) (h : c.sa ≠ safrom) (hg : (env.send c.sd).gone = true) :
    cleared env safrom (c :: rest) = c.sd :: cleared env safrom rest := by
  unfold cleared
  rw [recipients_cons_ne rest h]
  simp [List.filter_cons, hg]

theorem filter_cleared_cons (sd : Int) (l : List Int) (rfds : fd_set) :
    (FD_CLR sd rfds).filter (fun x => !decide (x ∈ l))
      = rfds.filter (fun x => !decide (x ∈ sd :: l)) := by
  unfold FD_CLR
  rw [List.filter_filter]
  apply List.filter_congr
  intro x _
  by_cases hx : x = sd <;> simp [hx]

/-- The relay loop when no `send` to a recipient fails with an error other than
`EINTR`, `EPIPE`, `ECONNRESET`: one `send` per recipient in registry order, the
recipients whose `send` failed with `EPIPE` or `ECONNRESET` leave the registry
and the watch set, nothing else changes. -/
theorem relay_no_fatal (env : TurnEnv) (p : List Byte) :
    ∀ (cl : List client) (f : Frame),
      (∀ c ∈ cl, c.sa ≠ f.safrom → env.send c.sd ≠ .error) →
      relay env p cl f =
        (survivors env f.safrom cl,
         { f with sends := f.sends ++ (recipients f.safrom cl).map (sendCall env p)
                  rfds := f.rfds.filter (fun x => !decide (x ∈ cleared env f.safrom cl)) }) := by
  intro cl
  induction cl with
  | nil => intro f _; simp [relay, survivors, recipients, cleared]
  | cons c rest ih =>
    intro f hf
    have hrest : ∀ c' ∈ rest, c'.sa ≠ f.safrom → env.send c'.sd ≠ .error :=
      fun c' hc' => hf c' (List.mem_cons_of_mem _ hc')
    rw [relay]
    by_cases hsa : c.sa = f.safrom
    · rw [if_pos hsa, ih f hrest, survivors_cons_keep rest (Or.inl hsa),
        cleared_cons_keep rest (Or.inl hsa), recipients_cons_eq rest hsa]
    · rw [if_neg hsa]
      have hc := hf c (List.mem_cons_self _ _) hsa
      cases hres : env.send c.sd with
      | sent =>
        have hg : (env.send c.sd).gone = false := by rw [hres]; rfl
        simp only []
        rw [ih, survivors_cons_keep rest (Or.inr hg),
          cleared_cons_keep rest (Or.inr hg), recipients_cons_ne rest hsa]
        · simp [sendCall, hres]
        · exact hrest
      | eintr =>
        have hg : (env.send c.sd).gone = false := by rw [hres]; rfl
        simp only []
        rw [ih, survivors_cons_keep rest (Or.inr hg),
          cleared_cons_keep rest (Or.inr hg), recipients_cons_ne rest hsa]
        · simp [sendCall, hres]
        · exact hrest
      | epipe =>
        have hg : (env.send c.sd).gone = true := by rw [hres]; rfl
        simp only []
        rw [ih, survivors_cons_drop rest hsa hg,
          cleared_cons_drop rest hsa hg, recipients_cons_ne rest hsa]
        · simp [sendCall, hres, filter_cleared_cons]
        · exact hrest
      | econnreset =>
        have hg : (env.send c.sd).gone = true := by rw [hres]; rfl
        simp only []
        rw [ih, survivors_cons_drop rest hsa hg,
          cleared_cons_drop rest hsa hg, recipients_cons_ne rest hsa]
        · simp [sendCall, hres, filter_cleared_cons]
        · exact hrest
      | error => exact absurd hres hc

/-! ## The client branch -/

theorem firstBytes_mem_take (l : List Byte) (n : Nat) (h : n ≤ l.length) :
    firstBytes (mem l) n = l.take n := by
  apply List.ext_getElem
  · simp [firstBytes, h]
  · intro i h1 h2
    have hi : i < l.length := by
      simp at h2; omega
    simp [firstBytes, mem, List.getD_eq_getElem?_getD, List.getElem?_eq_getElem hi]

theorem take_strlen (l : List Byte) : l.take (strlen l) = cstr l := by
  unfold strlen cstr
  have hp : List.takeWhile (fun b : Byte => b != 0) l <+: l := List.takeWhile_prefix _
  exact (List.prefix_iff_eq_take.1 hp).symm

theorem strlen_le_length (l : List Byte) : strlen l ≤ l.length := by
  unfold strlen cstr
  have hp : List.takeWhile (fun b : Byte => b != 0) l <+: l := List.takeWhile_prefix _
  exact hp.length_le

/-- What `sanitize(buffer, strlen(buffer))` returns: the sanitized form of the
string in `buffer`. -/
theorem sanitize_buffer (signedChar : Bool) (buffer : List Byte) (h : strlen buffer ≤ BUFFLEN) :
    ∃ p, sanitize signedChar (mem buffer) (strlen buffer) = some p ∧
      cstr p = sanitizedLine (cstr buffer) := by
  obtain ⟨p, hp, _, hc⟩ := sanitize_cstr signedChar (mem buffer) (strlen buffer) h
  refine ⟨p, hp, ?_⟩
  rw [hc, firstBytes_mem_take _ _ (strlen_le_length buffer), take_strlen]

theorem cstr_append_zeros (l : List Byte) (k : Nat) :
    cstr (l ++ List.replicate k (0 : Byte)) = cstr l := by
  unfold cstr
  induction l with
  | nil => exact cstr_zeros k
  | cons a l ih =>
    by_cases ha : a = 0
    · simp [ha]
    · rw [List.cons_append, List.takeWhile_cons_of_pos (by simpa using ha),
        List.takeWhile_cons_of_pos (by simpa using ha), ih]

/-- The string in `buffer` after a `recv` into the array as the top of the turn
left it: the received bytes up to the first NUL among them. -/
theorem cstr_recvInto_fresh (bytes : List Byte) (h : bytes.length ≤ BUFFLEN - 1) :
    cstr (recvInto bytes (List.replicate BUFFLEN 0)) = cstr bytes := by
  unfold recvInto
  simp only [Nat.min_eq_left h, List.drop_replicate, List.take_length]
  exact cstr_append_zeros bytes _

theorem serve_skip (signedChar : Bool) (env : TurnEnv) (rfd : fd_set) (l : List client) :
    ∀ (pre : List client) (f : Frame), (∀ c ∈ pre, FD_ISSET c.sd rfd = false) →
      serve signedChar env rfd (pre ++ l) f
        = (pre ++ (serve signedChar env rfd l f).1, (serve signedChar env rfd l f).2) := by
  intro pre
  induction pre with
  | nil => intro f _; rfl
  | cons c pre ih =>
    intro f h
    have hc := h c (List.mem_cons_self _ _)
    rw [List.cons_append, serve, hc]
    simp only [Bool.not_false, if_true]
    rw [ih f (fun c' hc' => h c' (List.mem_cons_of_mem _ hc'))]
    rfl

/-- The client branch when the first ready client delivers bytes whose string
part has a printable byte: the loop stops there with `ptr` on the sanitized
string and `safrom` on that client's address. -/
theorem serve_first_ready (signedChar : Bool) (env : TurnEnv) (rfd : fd_set)
    (pre : List client) (A : client) (post : List client) (f : Frame) (bytes : List Byte)
    (hfresh : f.buffer = List.replicate BUFFLEN 0)
    (hpre : ∀ c ∈ pre, FD_ISSET c.sd rfd = false) (hA : FD_ISSET A.sd rfd = true)
    (hrecv : env.recv A.sd = .data bytes) (h1 : 1 ≤ bytes.length)
    (h2 : bytes.length ≤ BUFFLEN - 1) :
    ∃ p, sanitize signedChar (mem (recvInto bytes f.buffer)) (strlen (recvInto bytes f.buffer))
          = some p ∧
      cstr p = sanitizedLine (cstr bytes) ∧
      (cstr p ≠ [] →
        serve signedChar env rfd (pre ++ A :: post) f
          = (pre ++ A :: post,
             { f with recvs := f.recvs ++ [A.sd], buffer := recvInto bytes f.buffer,
                      ptr := some p, safrom := A.sa })) := by
  have hstr : cstr (recvInto bytes f.buffer) = cstr bytes := by
    rw [hfresh]; exact cstr_recvInto_fresh bytes h2
  have hlen : strlen (recvInto bytes f.buffer) ≤ BUFFLEN := by
    unfold strlen
    rw [hstr]
    have := strlen_le_length bytes
    unfold strlen at this
    unfold BUFFLEN at h2 ⊢
    omega
  obtain ⟨p, hp, hc⟩ := sanitize_buffer signedChar (recvInto bytes f.buffer) hlen
  rw [hstr] at hc
  refine ⟨p, hp, hc, ?_⟩
  intro hne
  rw [serve_skip signedChar env rfd (A :: post) pre f hpre, serve, hA]
  simp only [Bool.not_true, Bool.false_eq_true, if_false, hrecv]
  have hret : ¬ min bytes.length (BUFFLEN - 1) = 0 := by
    rw [Nat.min_eq_left h2]; omega
  rw [if_neg hret]
  simp only [hp]
  have hs : ¬ strlen p = 0 := by
    unfold strlen
    intro h0
    exact hne (List.length_eq_zero.1 h0)
  rw [if_neg hs]

/-- A turn whose first read delivers a non-empty message runs the relay loop
over the whole registry with `ptr` on that message and `safrom` on the address
of the client that was read. -/
theorem turn_first_ready (signedChar : Bool) (sd : Int) (st : Server) (env : TurnEnv)
    (pre : List client) (A : client) (post : List client) (bytes : List Byte)
    (h : readsFirst sd st env pre A post bytes) :
    ∃ p, sanitize signedChar (mem (recvInto bytes (List.replicate BUFFLEN 0)))
            (strlen (recvInto bytes (List.replicate BUFFLEN 0))) = some p ∧
      cstr p = sanitizedLine (cstr bytes) ∧
      (cstr p ≠ [] →
        turn signedChar sd st env
          = relayPhase env st st.cl
              { Frame.fresh st with recvs := [A.sd],
                                    buffer := recvInto bytes (List.replicate BUFFLEN 0),
                                    ptr := some p, safrom := A.sa }) := by
  obtain ⟨fds, hsel, hl, hs, hcl, hpre, hA, hrecv, h1, h2⟩ := h
  obtain ⟨p, hp, hc, hserve⟩ :=
    serve_first_ready signedChar env (selected st fds) pre A post (Frame.fresh st) bytes rfl
      hpre hA hrecv h1 h2
  refine ⟨p, hp, hc, ?_⟩
  intro hne
  have hlen : ¬ (selected st fds).length = 0 := by
    intro h0
    have hnil := List.length_eq_zero.1 h0
    rw [hnil] at hA
    simp [FD_ISSET] at hA
  unfold turn
  simp only [hsel, if_neg hlen, hl, hs, Bool.false_eq_true, if_false]
  rw [hcl, hserve hne]
  rfl

theorem relay_recvs (env : TurnEnv) (p : List Byte) :
    ∀ (cl : List client) (f : Frame), (relay env p cl f).2.recvs = f.recvs := by
  intro cl
  induction cl with
  | nil => intro f; rfl
  | cons c rest ih =>
    intro f
    rw [relay]
    split
    · exact ih f
    · split <;> first | exact ih _ | rfl

/-- The `send` calls of the relay loop, whatever the outcomes: calls for the
recipients in registry order, up to the first fatal failure. -/
theorem relay_sends_upto (env : TurnEnv) (p : List Byte) :
    ∀ (cl : List client) (f : Frame),
      ∃ k, (relay env p cl f).2.sends
        = f.sends ++ ((recipients f.safrom cl).map (sendCall env p)).take k := by
  intro cl
  induction cl with
  | nil => intro f; exact ⟨0, by simp [relay]⟩
  | cons c rest ih =>
    intro f
    rw [relay]
    by_cases hsa : c.sa = f.safrom
    · rw [if_pos hsa, recipients_cons_eq rest hsa]
      exact ih f
    · rw [if_neg hsa, recipients_cons_ne rest hsa]
      have step : ∀ f1 : Frame, f1.safrom = f.safrom →
          f1.sends = f.sends ++ [sendCall env p c] →
          ∃ k, (relay env p rest f1).2.sends
            = f.sends ++ ((c :: recipients f.safrom rest).map (sendCall env p)).take k := by
        intro f1 hs hsend
        obtain ⟨k, hk⟩ := ih f1
        refine ⟨k + 1, ?_⟩
        rw [hk, hs, hsend]
        simp
      split
      · exact step _ rfl rfl
      · exact step _ rfl rfl
      · exact step _ rfl rfl
      · exact step _ rfl rfl
      · exact ⟨1, by simp [sendCall]⟩

theorem relayPhase_some (env : TurnEnv) (st : Server) (cl : List client) (f : Frame)
    (p : List Byte) (h : f.ptr = some p) :
    relayPhase env st cl f =
      { state := { st with cl := (relay env p cl f).1, rfds := (relay env p cl f).2.rfds,
                           run := afterSignals env st.run },
        recvs := (relay env p cl f).2.recvs, sends := (relay env p cl f).2.sends,
        halt := (relay env p cl f).2.halt } := by
  unfold relayPhase
  rw [h]

theorem recipients_append (safrom : sockaddr_in) (l₁ l₂ : List client) :
    recipients safrom (l₁ ++ l₂) = recipients safrom l₁ ++ recipients safrom l₂ := by
  unfold recipients
  exact List.filter_append _ _

theorem mem_recipients {safrom : sockaddr_in} {cl : List client} {c : client} :
    c ∈ recipients safrom cl ↔ c ∈ cl ∧ c.sa ≠ safrom := by
  unfold recipients
  simp [List.mem_filter]

theorem mem_survivors {env : TurnEnv} {safrom : sockaddr_in} {cl : List client} {c : client} :
    c ∈ survivors env safrom cl ↔ c ∈ cl ∧ (c.sa = safrom ∨ (env.send c.sd).gone = false) := by
  unfold survivors
  simp [List.mem_filter]

theorem mem_cleared {env : TurnEnv} {safrom : sockaddr_in} {cl : List client} {x : Int} :
    x ∈ cleared env safrom cl ↔
      ∃ c ∈ cl, c.sa ≠ safrom ∧ (env.send c.sd).gone = true ∧ c.sd = x := by
  unfold cleared
  simp only [List.mem_map, List.mem_filter, mem_recipients]
  constructor
  · rintro ⟨c, ⟨⟨h1, h2⟩, h3⟩, h4⟩
    exact ⟨c, h1, h2, h3, h4⟩
  · rintro ⟨c, h1, h2, h3, h4⟩
    exact ⟨c, ⟨⟨h1, h2⟩, h3⟩, h4⟩

theorem nodup_recipients {safrom : sockaddr_in} {cl : List client}
    (h : (cl.map client.sd).Nodup) : ((recipients safrom cl).map client.sd).Nodup := by
  unfold recipients
  exact h.sublist ((List.filter_sublist cl).map client.sd)

/-- Among the `send` calls for a list of clients with pairwise distinct handles,
the calls on the handle of one of them are exactly one call. -/
theorem filter_sendCall (env : TurnEnv) (p : List Byte) :
    ∀ (l : List client) (c : client), (l.map client.sd).Nodup → c ∈ l →
      (l.map (sendCall env p)).filter (fun s => decide (s.fd = c.sd)) = [sendCall env p c] := by
  intro l
  induction l with
  | nil => intro c _ hc; cases hc
  | cons a l ih =>
    intro c hnd hc
    rw [List.map_cons, List.nodup_cons] at hnd
    rcases List.mem_cons.1 hc with rfl | hcl
    · rw [List.map_cons, List.filter_cons_of_pos (by simp [sendCall])]
      congr 1
      rw [List.filter_eq_nil_iff]
      intro s hs
      obtain ⟨b, hb, rfl⟩ := List.mem_map.1 hs
      have : b.sd ≠ c.sd := by
        intro e
        exact hnd.1 (e ▸ List.mem_map_of_mem client.sd hb)
      simpa [sendCall] using this
    · have hne : a.sd ≠ c.sd := by
        intro e
        exact hnd.1 (e ▸ List.mem_map_of_mem client.sd hcl)
      rw [List.map_cons, List.filter_cons_of_neg (by simpa [sendCall] using hne)]
      exact ih c hnd.2 hcl

theorem no_sendCall_on (env : TurnEnv) (p : List Byte) (l : List client) (x : Int)
    (h : x ∉ l.map client.sd) :
    (l.map (sendCall env p)).filter (fun s => decide (s.fd = x)) = [] := by
  rw [List.filter_eq_nil_iff]
  intro s hs
  obtain ⟨b, hb, rfl⟩ := List.mem_map.1 hs
  have : b.sd ≠ x := by
    intro e
    exact h (e ▸ List.mem_map_of_mem client.sd hb)
  simpa [sendCall] using this

/-! ## The client branch and the relay: claims -/

/-- C2 as stated fails in two ways. A NUL inside the read ends the message:
after the bytes 'A', NUL, 'B' from the client on handle 4, the other client is
sent "A" and a line feed, not "AB" and a line feed. And bytes of an earlier read
of the same turn can enter the message: when handle 4 delivers NUL, 'A', 'B'
and handle 5 delivers 'h', the message relayed for handle 5 is "hAB" and a line
feed. -/
theorem client_message_not_whole_read :
    (turn true 3 (watching [clientA, clientB])
        (answers [4] (fun _ => .data [0x41, 0x00, 0x42]) (fun _ => .sent))).sends
      = [⟨5, [0x41, 0x0a], .sent⟩] ∧
    sanitizedLine [0x41, 0x00, 0x42] = [0x41, 0x42, 0x0a] ∧
    (turn true 3 (watching [clientA, clientB, clientC])
        (answers [4, 5]
          (fun fd => if fd = 4 then .data [0x00, 0x41, 0x42] else .data [0x68])
          (fun _ => .sent))).sends
      = [⟨4, [0x68, 0x41, 0x42, 0x0a], .sent⟩, ⟨6, [0x68, 0x41, 0x42, 0x0a], .sent⟩] ∧
    sanitizedLine [0x68] = [0x68, 0x0a] := by
  decide

/-- C2, amended: for the first read of a turn, returning between 1 and 1023
bytes, the message the server builds is the sanitized form of the received
bytes that precede the first NUL of the read (of all of them when none is NUL);
when that message is not empty, the turn reads no other client and every
`send` of the turn carries exactly that message. -/
theorem client_message_is_sanitized_string (signedChar : Bool) (sd : Int) (st : Server)
    (env : TurnEnv) (pre : List client) (A : client) (post : List client) (bytes : List Byte)
    (h : readsFirst sd st env pre A post bytes) :
    (∃ p, sanitize signedChar (mem (recvInto bytes (List.replicate BUFFLEN 0)))
            (strlen (recvInto bytes (List.replicate BUFFLEN 0))) = some p ∧
          cstr p = sanitizedLine (bytes.takeWhile (fun b => b != 0))) ∧
    (sanitizedLine (bytes.takeWhile (fun b => b != 0)) ≠ [] →
      (turn signedChar sd st env).recvs = [A.sd] ∧
      ∀ s ∈ (turn signedChar sd st env).sends,
        s.payload = sanitizedLine (bytes.takeWhile (fun b => b != 0))) := by
  obtain ⟨p, hp, hc, hturn⟩ := turn_first_ready signedChar sd st env pre A post bytes h
  refine ⟨⟨p, hp, hc⟩, ?_⟩
  intro hne
  have hne2 : cstr p ≠ [] := by rw [hc]; exact hne
  rw [hturn hne2, relayPhase_some env st st.cl _ p rfl]
  constructor
  · exact relay_recvs env p st.cl _
  · intro s hs
    obtain ⟨k, hk⟩ := relay_sends_upto env p st.cl
      { Frame.fresh st with recvs := [A.sd], buffer := recvInto bytes (List.replicate BUFFLEN 0),
                            ptr := some p, safrom := A.sa }
    simp only at hs
    rw [hk] at hs
    simp only [Frame.fresh, List.nil_append] at hs
    obtain ⟨c, _, hcs⟩ := List.mem_map.1 (List.mem_of_mem_take hs)
    rw [← hcs]
    exact hc

/-- C2, amended, on an example: handle 4 delivers 'A', NUL, 'B'; the message is
"A" and a line feed. -/
theorem client_message_is_sanitized_string_witness :
    readsFirst 3 (watching [clientA, clientB])
      (answers [4] (fun _ => .data [0x41, 0x00, 0x42]) (fun _ => .sent))
      [] clientA [clientB] [0x41, 0x00, 0x42] ∧
    sanitizedLine (([0x41, 0x00, 0x42] : List Byte).takeWhile (fun b => b != 0)) ≠ [] ∧
    (turn true 3 (watching [clientA, clientB])
      (answers [4] (fun _ => .data [0x41, 0x00, 0x42]) (fun _ => .sent))).recvs = [clientA.sd] ∧
    ∀ s ∈ (turn true 3 (watching [clientA, clientB])
      (answers [4] (fun _ => .data [0x41, 0x00, 0x42]) (fun _ => .sent))).sends,
      s.payload = sanitizedLine (([0x41, 0x00, 0x42] : List Byte).takeWhile (fun b => b != 0)) := by
  have hr : readsFirst 3 (watching [clientA, clientB])
      (answers [4] (fun _ => .data [0x41, 0x00, 0x42]) (fun _ => .sent))
      [] clientA [clientB] [0x41, 0x00, 0x42] :=
    ⟨[4], rfl, by decide, by decide, rfl, by decide, by decide, rfl, by decide, by decide⟩
  have hne : sanitizedLine (([0x41, 0x00, 0x42] : List Byte).takeWhile (fun b => b != 0)) ≠ [] := by
    decide
  exact ⟨hr, hne,
    (client_message_is_sanitized_string true 3 _ _ [] clientA [clientB] [0x41, 0x00, 0x42] hr).2
      hne⟩

/-- C3 as stated fails: the relay tells clients apart by peer address, not by
handle. With the clients on handles 4 and 7 reporting the same address, a
message read from handle 4 is sent to handle 5 only; the registered client on
handle 7 gets no `send`. -/
theorem relay_skips_client_with_origin_address :
    clientA2 ∈ (watching [clientA, clientA2, clientB]).cl ∧
    clientA2.sd ≠ clientA.sd ∧
    (turn true 3 (watching [clientA, clientA2, clientB])
        (answers [4] (fun _ => .data [0x68, 0x69]) (fun _ => .sent))).sends
      = [⟨5, [0x68, 0x69, 0x0a], .sent⟩] := by
  decide

/-- C3, amended: when the first read of a turn, from client `A`, yields a
non-empty message, every `send` of the turn carries that message and goes to a
registered client whose peer address differs from that of `A` (so never to `A`);
when no `send` fails with an error other than `EINTR`, `EPIPE`, `ECONNRESET`,
the sends are one per such client, in registry order; and when handles are
pairwise distinct and no other entry has the address of `A`, these clients are
exactly the registered clients whose handle differs from that of `A`. -/
theorem relay_sends_to_other_addresses (signedChar : Bool) (sd : Int) (st : Server)
    (env : TurnEnv) (pre : List client) (A : client) (post : List client) (bytes : List Byte)
    (h : readsFirst sd st env pre A post bytes)
    (hne : sanitizedLine (cstr bytes) ≠ []) :
    (∀ s ∈ (turn signedChar sd st env).sends,
        s.payload = sanitizedLine (cstr bytes) ∧ ∃ c ∈ st.cl, c.sd = s.fd ∧ c.sa ≠ A.sa) ∧
    ((∀ c ∈ st.cl, c.sa ≠ A.sa → env.send c.sd ≠ .error) →
      (turn signedChar sd st env).sends.map (fun s => (s.fd, s.payload))
        = (st.cl.filter (fun c => decide (c.sa ≠ A.sa))).map
            (fun c => (c.sd, sanitizedLine (cstr bytes)))) ∧
    ((st.cl.map client.sd).Nodup →
      (∀ s ∈ (turn signedChar sd st env).sends, s.fd ≠ A.sd) ∧
      ((∀ c ∈ st.cl, c.sa = A.sa → c = A) →
        st.cl.filter (fun c => decide (c.sa ≠ A.sa))
          = st.cl.filter (fun c => decide (c.sd ≠ A.sd)))) := by
  obtain ⟨p, _, hc, hturn⟩ := turn_first_ready signedChar sd st env pre A post bytes h
  have hne2 : cstr p ≠ [] := by rw [hc]; exact hne
  have hAcl : A ∈ st.cl := by
    obtain ⟨_, _, _, _, hcl, _⟩ := h
    rw [hcl]; simp
  have hmem : ∀ s ∈ (turn signedChar sd st env).sends,
      s.payload = sanitizedLine (cstr bytes) ∧ ∃ c ∈ st.cl, c.sd = s.fd ∧ c.sa ≠ A.sa := by
    intro s hs
    rw [hturn hne2, relayPhase_some env st st.cl _ p rfl] at hs
    obtain ⟨k, hk⟩ := relay_sends_upto env p st.cl
      { Frame.fresh st with recvs := [A.sd], buffer := recvInto bytes (List.replicate BUFFLEN 0),
                            ptr := some p, safrom := A.sa }
    simp only at hs
    rw [hk] at hs
    simp only [Frame.fresh, List.nil_append] at hs
    obtain ⟨c, hcm, hcs⟩ := List.mem_map.1 (List.mem_of_mem_take hs)
    have hcr := mem_recipients.1 hcm
    rw [← hcs]
    exact ⟨hc, c, hcr.1, rfl, hcr.2⟩
  refine ⟨hmem, ?_, ?_⟩
  · intro hnf
    rw [hturn hne2, relayPhase_some env st st.cl _ p rfl]
    simp only
    rw [relay_no_fatal env p st.cl _ hnf]
    simp only [Frame.fresh, List.nil_append, List.map_map, recipients]
    apply List.map_congr_left
    intro c _
    simp [sendCall, hc]
  · intro hnd
    have hsd : ∀ c ∈ st.cl, c.sa ≠ A.sa → c.sd ≠ A.sd := by
      intro c hcm hsa e
      have := List.inj_on_of_nodup_map hnd hcm hAcl e
      exact hsa (this ▸ rfl)
    constructor
    · intro s hs
      obtain ⟨_, c, hcm, hfd, hsa⟩ := hmem s hs
      rw [← hfd]
      exact hsd c hcm hsa
    · intro huniq
      apply List.filter_congr
      intro c hcm
      by_cases hsa : c.sa = A.sa
      · have := huniq c hcm hsa
        subst this
        simp
      · simp [hsa, hsd c hcm hsa]

/-- C3, amended, on an example: registry of the clients on handles 4, 5, 6, a
message "hi" read from handle 4; the sends go to handles 5 and 6. -/
theorem relay_sends_to_other_addresses_witness :
    readsFirst 3 (watching [clientA, clientB, clientC])
      (answers [4] (fun _ => .data [0x68, 0x69]) (fun _ => .sent))
      [] clientA [clientB, clientC] [0x68, 0x69] ∧
    sanitizedLine (cstr [0x68, 0x69]) ≠ [] ∧
    (turn true 3 (watching [clientA, clientB, clientC])
        (answers [4] (fun _ => .data [0x68, 0x69]) (fun _ => .sent))).sends.map
        (fun s => (s.fd, s.payload))
      = ((watching [clientA, clientB, clientC]).cl.filter
          (fun c => decide (c.sa ≠ clientA.sa))).map
          (fun c => (c.sd, sanitizedLine (cstr [0x68, 0x69]))) ∧
    (watching [clientA, clientB, clientC]).cl.filter (fun c => decide (c.sa ≠ clientA.sa))
      = (watching [clientA, clientB, clientC]).cl.filter (fun c => decide (c.sd ≠ clientA.sd)) := by
  have hr : readsFirst 3 (watching [clientA, clientB, clientC])
      (answers [4] (fun _ => .data [0x68, 0x69]) (fun _ => .sent))
      [] clientA [clientB, clientC] [0x68, 0x69] :=
    ⟨[4], rfl, by decide, by decide, rfl, by decide, by decide, rfl, by decide, by decide⟩
  have hne : sanitizedLine (cstr [0x68, 0x69]) ≠ [] := by decide
  have hthm := relay_sends_to_other_addresses true 3 _ _ [] clientA [clientB, clientC]
    [0x68, 0x69] hr hne
  exact ⟨hr, hne, hthm.2.1 (by decide), (hthm.2.2 (by decide)).2 (by decide)⟩

/-- C4 as stated fails. Relaying "hi" from handle 4 over the registry of handles
4, 5, 6, 8: when the `send` to handle 5 fails with `ECONNRESET` and the one to
handle 6 with another error, the process ends and handle 8, a recipient after
handle 5, gets no `send`; when the one to handle 6 fails with `EINTR`, handle 6
gets that one interrupted call and so is not sent the message; and when the
sends to handles 5 and 6 both fail with `EPIPE`, handle 5, a client before
handle 6, is removed as well. -/
theorem later_failure_stops_relay :
    (turn true 3 { watching [clientA, clientB, clientC, clientD] with maxfd := 8 }
        (answers [4] (fun _ => .data [0x68, 0x69])
          (fun fd => if fd = 5 then .econnreset else if fd = 6 then .error else .sent))).sends
      = [⟨5, [0x68, 0x69, 0x0a], .econnreset⟩, ⟨6, [0x68, 0x69, 0x0a], .error⟩] ∧
    (turn true 3 { watching [clientA, clientB, clientC, clientD] with maxfd := 8 }
        (answers [4] (fun _ => .data [0x68, 0x69])
          (fun fd => if fd = 5 then .econnreset else if fd = 6 then .error else .sent))).halt
      = some .exit1 ∧
    (turn true 3 { watching [clientA, clientB, clientC, clientD] with maxfd := 8 }
        (answers [4] (fun _ => .data [0x68, 0x69])
          (fun fd => if fd = 5 then .econnreset else if fd = 6 then .eintr else .sent))).sends
      = [⟨5, [0x68, 0x69, 0x0a], .econnreset⟩, ⟨6, [0x68, 0x69, 0x0a], .eintr⟩,
         ⟨8, [0x68, 0x69, 0x0a], .sent⟩] ∧
    (turn true 3 { watching [clientA, clientB, clientC, clientD] with maxfd := 8 }
        (answers [4] (fun _ => .data [0x68, 0x69])
          (fun fd => if fd = 5 then .epipe else if fd = 6 then .epipe else .sent))).state.cl
      = [clientA, clientD] := by
  decide

/-- C4, amended: in a relay over the registry `pre ++ B :: post` with pairwise
distinct handles in which no `send` fails with an error other than `EINTR`,
`EPIPE`, `ECONNRESET`, and in which the `send` to recipient `B` fails with
`EPIPE` or `ECONNRESET`, the loop runs to its end; `B` is no longer in the
registry nor its handle in the watch set; the `send` calls are one per
recipient in registry order, so every recipient after `B` gets exactly one
`send` call and no client before `B` gets two; a client other than `B` leaves
the registry only if its own `send` failed with `EPIPE` or `ECONNRESET`; and
the origin (every entry with the address `safrom`) stays in the registry and
gets no `send` call. -/
theorem relay_isolates_failed_recipient (env : TurnEnv) (p : List Byte)
    (pre : List client) (B : client) (post : List client) (f : Frame)
    (r : List client × Frame)
    (hr : relay env p (pre ++ B :: post) f = r)
    (h0 : f.sends = [])
    (hnd : ((pre ++ B :: post).map client.sd).Nodup)
    (hB : B.sa ≠ f.safrom)
    (hfail : env.send B.sd = .epipe ∨ env.send B.sd = .econnreset)
    (hnf : ∀ c ∈ pre ++ B :: post, c.sa ≠ f.safrom → env.send c.sd ≠ .error) :
    r.2.halt = f.halt ∧
    B ∉ r.1 ∧ B.sd ∉ r.2.rfds ∧
    r.2.sends = (recipients f.safrom pre).map (sendCall env p)
                  ++ sendCall env p B :: (recipients f.safrom post).map (sendCall env p) ∧
    (∀ c ∈ post, c.sa ≠ f.safrom →
      r.2.sends.filter (fun s => decide (s.fd = c.sd)) = [sendCall env p c]) ∧
    (∀ c ∈ pre, (r.2.sends.filter (fun s => decide (s.fd = c.sd))).length ≤ 1) ∧
    (∀ c ∈ pre ++ post, (c.sa = f.safrom ∨ (env.send c.sd).gone = false) → c ∈ r.1) ∧
    (∀ a ∈ pre ++ B :: post, a.sa = f.safrom →
      a ∈ r.1 ∧ r.2.sends.filter (fun s => decide (s.fd = a.sd)) = []) := by
  subst hr
  rw [relay_no_fatal env p _ f hnf]
  simp only [h0, List.nil_append]
  have hgone : (env.send B.sd).gone = true := by
    rcases hfail with e | e <;> rw [e] <;> rfl
  have hBmem : B ∈ pre ++ B :: post := by simp
  have hsends : (recipients f.safrom (pre ++ B :: post)).map (sendCall env p)
      = (recipients f.safrom pre).map (sendCall env p)
          ++ sendCall env p B :: (recipients f.safrom post).map (sendCall env p) := by
    rw [recipients_append, recipients_cons_ne post hB, List.map_append, List.map_cons]
  have hndr : ((recipients f.safrom (pre ++ B :: post)).map client.sd).Nodup :=
    nodup_recipients hnd
  refine ⟨trivial, ?_, ?_, hsends, ?_, ?_, ?_, ?_⟩
  · intro hm
    rcases (mem_survivors.1 hm).2 with e | e
    · exact hB e
    · rw [hgone] at e; cases e
  · intro hm
    have := (List.mem_filter.1 hm).2
    have hcl : B.sd ∈ cleared env f.safrom (pre ++ B :: post) :=
      mem_cleared.2 ⟨B, hBmem, hB, hgone, rfl⟩
    simp [hcl] at this
  · intro c hc hsa
    exact filter_sendCall env p _ c hndr
      (mem_recipients.2 ⟨by simp [hc], hsa⟩)
  · intro c hc
    by_cases hsa : c.sa = f.safrom
    · have : c.sd ∉ (recipients f.safrom (pre ++ B :: post)).map client.sd := by
        intro hm
        obtain ⟨b, hb, hbs⟩ := List.mem_map.1 hm
        have hb2 := mem_recipients.1 hb
        have := List.inj_on_of_nodup_map hnd hb2.1 (by simp [hc]) hbs
        exact hb2.2 (this ▸ hsa)
      rw [no_sendCall_on env p _ _ this]
      simp
    · rw [filter_sendCall env p _ c hndr (mem_recipients.2 ⟨by simp [hc], hsa⟩)]
      simp
  · intro c hc hkeep
    refine mem_survivors.2 ⟨?_, hkeep⟩
    rcases List.mem_append.1 hc with h1 | h1 <;> simp [h1]
  · intro a ha hsa
    refine ⟨mem_survivors.2 ⟨ha, Or.inl hsa⟩, ?_⟩
    apply no_sendCall_on
    intro hm
    obtain ⟨b, hb, hbs⟩ := List.mem_map.1 hm
    have hb2 := mem_recipients.1 hb
    have := List.inj_on_of_nodup_map hnd hb2.1 ha hbs
    exact hb2.2 (this ▸ hsa)

/-- C4, amended, on the example of the specification: relay of a message from the client
on handle 4 over the registry of handles 4, 5, 6, the `send` to handle 5 failing
with `ECONNRESET`: handle 5 leaves registry and watch set, handle 6 is sent the
message once, handle 4 stays. -/
theorem relay_isolates_failed_recipient_witness :
    (relay (answers [4] (fun _ => .data [0x68, 0x69])
              (fun fd => if fd = 5 then .econnreset else .sent))
        [0x68, 0x69, 0x0a, 0x00] ([clientA] ++ clientB :: [clientC])
        { Frame.fresh (watching [clientA, clientB, clientC]) with safrom := clientA.sa }).1
      = [clientA, clientC] ∧
    (relay (answers [4] (fun _ => .data [0x68, 0x69])
              (fun fd => if fd = 5 then .econnreset else .sent))
        [0x68, 0x69, 0x0a, 0x00] ([clientA] ++ clientB :: [clientC])
        { Frame.fresh (watching [clientA, clientB, clientC]) with safrom := clientA.sa }).2.sends
      = [⟨5, [0x68, 0x69, 0x0a], .econnreset⟩, ⟨6, [0x68, 0x69, 0x0a], .sent⟩] ∧
    clientB ∉ (relay (answers [4] (fun _ => .data [0x68, 0x69])
              (fun fd => if fd = 5 then .econnreset else .sent))
        [0x68, 0x69, 0x0a, 0x00] ([clientA] ++ clientB :: [clientC])
        { Frame.fresh (watching [clientA, clientB, clientC]) with safrom := clientA.sa }).1 ∧
    clientB.sd ∉ (relay (answers [4] (fun _ => .data [0x68, 0x69])
              (fun fd => if fd = 5 then .econnreset else .sent))
        [0x68, 0x69, 0x0a, 0x00] ([clientA] ++ clientB :: [clientC])
        { Frame.fresh (watching [clientA, clientB, clientC]) with safrom := clientA.sa }).2.rfds := by
  have hthm := relay_isolates_failed_recipient
    (answers [4] (fun _ => .data [0x68, 0x69]) (fun fd => if fd = 5 then .econnreset else .sent))
    [0x68, 0x69, 0x0a, 0x00] [clientA] clientB [clientC]
    { Frame.fresh (watching [clientA, clientB, clientC]) with safrom := clientA.sa }
    _ rfl rfl (by decide) (by decide) (Or.inr (by decide)) (by decide)
  exact ⟨by decide, by decide, hthm.2.1, hthm.2.2.1⟩

/-- C5 as stated fails: an interrupted `send` is not retried. Relaying "hi"
from handle 4 with the `send` to handle 5 failing with `EINTR`, the turn makes
one `send` call on handle 5, the interrupted one, and goes on to handle 6. And
the relay does not always reach the next recipients: over the registry of
handles 4, 5, 6, 8, when the `send` to handle 6 then fails with another error,
the process ends and handle 8 gets no `send` call. -/
theorem interrupted_send_is_not_retried :
    (turn true 3 (watching [clientA, clientB, clientC])
        (answers [4] (fun _ => .data [0x68, 0x69])
          (fun fd => if fd = 5 then .eintr else .sent))).sends
      = [⟨5, [0x68, 0x69, 0x0a], .eintr⟩, ⟨6, [0x68, 0x69, 0x0a], .sent⟩] ∧
    (turn true 3 { watching [clientA, clientB, clientC, clientD] with maxfd := 8 }
        (answers [4] (fun _ => .data [0x68, 0x69])
          (fun fd => if fd = 5 then .eintr else if fd = 6 then .error else .sent))).sends
      = [⟨5, [0x68, 0x69, 0x0a], .eintr⟩, ⟨6, [0x68, 0x69, 0x0a], .error⟩] ∧
    (turn true 3 { watching [clientA, clientB, clientC, clientD] with maxfd := 8 }
        (answers [4] (fun _ => .data [0x68, 0x69])
          (fun fd => if fd = 5 then .eintr else if fd = 6 then .error else .sent))).halt
      = some .exit1 := by
  decide

/-- C5, amended: in a relay over a registry with pairwise distinct handles in
which no `send` fails with an error other than `EINTR`, `EPIPE`, `ECONNRESET`,
a recipient whose `send` fails with `EINTR` gets no second `send`: the calls on
its handle are that one interrupted call; the loop runs to its end with one
`send` call per recipient in registry order, and the interrupted recipient
stays in the registry and in the watch set. -/
theorem relay_interrupted_send_moves_on (env : TurnEnv) (p : List Byte)
    (cl : List client) (c : client) (f : Frame) (r : List client × Frame)
    (hr : relay env p cl f = r)
    (h0 : f.sends = [])
    (hnd : (cl.map client.sd).Nodup)
    (hc : c ∈ cl) (hsa : c.sa ≠ f.safrom)
    (hintr : env.send c.sd = .eintr)
    (hnf : ∀ c' ∈ cl, c'.sa ≠ f.safrom → env.send c'.sd ≠ .error) :
    r.2.halt = f.halt ∧
    r.2.sends = (recipients f.safrom cl).map (sendCall env p) ∧
    r.2.sends.filter (fun s => decide (s.fd = c.sd)) = [⟨c.sd, cstr p, .eintr⟩] ∧
    c ∈ r.1 ∧
    (c.sd ∈ f.rfds → c.sd ∈ r.2.rfds) := by
  subst hr
  rw [relay_no_fatal env p _ f hnf]
  simp only [h0, List.nil_append]
  have hgone : (env.send c.sd).gone = false := by rw [hintr]; rfl
  refine ⟨trivial, trivial, ?_, mem_survivors.2 ⟨hc, Or.inr hgone⟩, ?_⟩
  · rw [filter_sendCall env p _ c (nodup_recipients hnd) (mem_recipients.2 ⟨hc, hsa⟩)]
    simp [sendCall, hintr]
  · intro hm
    apply List.mem_filter.2
    refine ⟨hm, ?_⟩
    have : c.sd ∉ cleared env f.safrom cl := by
      intro hcl
      obtain ⟨b, _, _, hbg, hbs⟩ := mem_cleared.1 hcl
      rw [hbs, hgone] at hbg
      cases hbg
    simp [this]

/-- C5, amended, on an example: relay over handles 4, 5, 6 with origin 4 and
the `send` to handle 5 interrupted. -/
theorem relay_interrupted_send_moves_on_witness :
    (relay (answers [4] (fun _ => .data [0x68, 0x69])
              (fun fd => if fd = 5 then .eintr else .sent))
        [0x68, 0x69, 0x0a, 0x00] [clientA, clientB, clientC]
        { Frame.fresh (watching [clientA, clientB, clientC]) with safrom := clientA.sa }).2.sends.filter
        (fun s => decide (s.fd = clientB.sd))
      = [⟨clientB.sd, cstr [0x68, 0x69, 0x0a, 0x00], .eintr⟩] ∧
    clientB ∈ (relay (answers [4] (fun _ => .data [0x68, 0x69])
              (fun fd => if fd = 5 then .eintr else .sent))
        [0x68, 0x69, 0x0a, 0x00] [clientA, clientB, clientC]
        { Frame.fresh (watching [clientA, clientB, clientC]) with safrom := clientA.sa }).1 := by
  have hthm := relay_interrupted_send_moves_on
    (answers [4] (fun _ => .data [0x68, 0x69]) (fun fd => if fd = 5 then .eintr else .sent))
    [0x68, 0x69, 0x0a, 0x00] [clientA, clientB, clientC] clientB
    { Frame.fresh (watching [clientA, clientB, clientC]) with safrom := clientA.sa }
    _ rfl rfl (by decide) (by decide) (by decide) (by decide) (by decide)
  exact ⟨hthm.2.2.1, hthm.2.2.2.1⟩

/-- C9 on the code: a turn in which only the client on handle 4 is ready and its
read, the byte 0x01, sanitizes to the empty string. The loop over the clients
ends with `ptr` not null, so the relay runs with an empty message and a zeroed
`safrom`: a `send` of length 0 goes to every client, the one read included;
when such a `send` fails with `EPIPE` the client is taken out of the registry
and of the watch set. -/
theorem empty_message_is_relayed :
    (turn true 3 (watching [clientA, clientB])
        (answers [4] (fun _ => .data [0x01]) (fun _ => .sent))).sends
      = [⟨4, [], .sent⟩, ⟨5, [], .sent⟩] ∧
    (turn true 3 (watching [clientA, clientB])
        (answers [4] (fun _ => .data [0x01])
          (fun fd => if fd = 5 then .epipe else .sent))).state.cl
      = [clientA] ∧
    (turn true 3 (watching [clientA, clientB])
        (answers [4] (fun _ => .data [0x01])
          (fun fd => if fd = 5 then .epipe else .sent))).state.rfds
      = [3, 0, 4] ∧
    (watching [clientA, clientB]).cl = [clientA, clientB] ∧
    (watching [clientA, clientB]).rfds = [3, 0, 4, 5] := by
  decide

/-- C10 on the code: in a turn in which the clients on handles 4 and 5 are ready
and neither the listening socket nor standard input is, `recv` is called on
both when the read on handle 4 is interrupted, and also when it delivers bytes
that sanitize to the empty string. -/
theorem second_client_read_in_same_turn :
    (turn true 3 (watching [clientA, clientB])
        (answers [4, 5] (fun fd => if fd = 4 then .eintr else .data [0x68, 0x69])
          (fun _ => .sent))).recvs
      = [4, 5] ∧
    (turn true 3 (watching [clientA, clientB])
        (answers [4, 5] (fun fd => if fd = 4 then .data [0x01] else .data [0x68, 0x69])
          (fun _ => .sent))).recvs
      = [4, 5] := by
  decide

/-! ## Registry and watch set -/

end TcpChat
